import Mathlib

/-!
Verification development for `rss_to_ods.py`: a shallow embedding of the
script's data model and operations, followed by theorems about them.

Conventions of the embedding:
* Python `datetime` values (as produced by `datetime.strptime` on the two
  fixed formats used by the script) are modelled by `PyDateTime`; aware
  datetimes compare by their absolute timestamp, modelled by `toAbsSecs`.
* Python exceptions caught by the script (`ValueError`, `TypeError`) are
  modelled by `Option`: a parse that raises is a parse returning `none`.
* The network, `feedparser` and the ODS writer are external collaborators:
  a feed source is a function from the requested URL to a parsed page, and
  the ODS document is modelled by the table of cell values it contains.
-/

/-- Model of a Python `datetime` as built by this script: calendar fields
plus a timezone offset in seconds (`tzinfo = timezone(timedelta(...))`).
Microseconds are always zero in every datetime this script constructs, so
they are omitted. -/
structure PyDateTime where
  year : Nat
  month : Nat
  day : Nat
  hour : Nat
  minute : Nat
  second : Nat
  tzOffSecs : Int
deriving DecidableEq

/-- Gregorian leap year rule, as used by Python's `datetime` validation. -/
def isLeap (y : Nat) : Bool :=
  y % 4 == 0 && (y % 100 != 0 || y % 400 == 0)

/-- Cumulative day count before month `m` in a non-leap year (1-based). -/
def cumDays : Nat → Nat
  | 1 => 0 | 2 => 31 | 3 => 59 | 4 => 90 | 5 => 120 | 6 => 151
  | 7 => 181 | 8 => 212 | 9 => 243 | 10 => 273 | 11 => 304 | 12 => 334
  | _ => 0

/-- Number of days in month `m` of year `y` (Python `datetime` validity). -/
def daysInMonth (y m : Nat) : Nat :=
  if m = 2 then (if isLeap y then 29 else 28)
  else if m = 4 ∨ m = 6 ∨ m = 9 ∨ m = 11 then 30
  else 31

/-- Days from 0001-01-01 to the start of year `y` (proleptic Gregorian). -/
def daysBeforeYear (y : Nat) : Nat :=
  let n := y - 1
  n * 365 + n / 4 - n / 100 + n / 400

/-- Days from the start of year `y` to the start of its month `m`. -/
def daysBeforeMonth (y m : Nat) : Nat :=
  cumDays m + (if 2 < m ∧ isLeap y then 1 else 0)

/-- Absolute timestamp of an aware `PyDateTime`, in seconds on a fixed
timeline.  Two aware Python datetimes compare exactly as these numbers
compare (Python compares `dt - dt.utcoffset()`). -/
def toAbsSecs (d : PyDateTime) : Int :=
  ((daysBeforeYear d.year + daysBeforeMonth d.year d.month + (d.day - 1)) * 86400
    + d.hour * 3600 + d.minute * 60 + d.second : Nat) - d.tzOffSecs

/-- Whitespace for Python's `re` class `\s` and `str.strip` on `str`
(ASCII whitespace, the C1 separators, and the Unicode space characters). -/
def isPySpace (c : Char) : Bool :=
  let n := c.toNat
  n == 32 || n == 9 || n == 10 || n == 13 || n == 11 || n == 12 ||
  (decide (28 ≤ n) && decide (n ≤ 31)) || n == 133 || n == 160 || n == 5760 ||
  (decide (8192 ≤ n) && decide (n ≤ 8202)) || n == 8232 || n == 8233 ||
  n == 8239 || n == 8287 || n == 12288

/-- ASCII lower-casing, modelling the case-insensitive name matching of
`strptime` on the English day and month abbreviations. -/
def lowerChar (c : Char) : Char :=
  if 65 ≤ c.toNat ∧ c.toNat ≤ 90 then Char.ofNat (c.toNat + 32) else c

/-- Drop a (lower-case) pattern from the head of `s`, case-insensitively. -/
def dropPrefixCI : List Char → List Char → Option (List Char)
  | [], s => some s
  | _ :: _, [] => none
  | p :: ps, c :: cs => if lowerChar c = p then dropPrefixCI ps cs else none

/-- First alternative (by index) that matches a prefix of `s`. -/
def tryAlts : List (List Char) → Nat → List Char → Option (Nat × List Char)
  | [], _, _ => none
  | a :: as, i, s =>
    match dropPrefixCI a s with
    | some r => some (i, r)
    | none => tryAlts as (i + 1) s

/-- English abbreviated weekday names matched by `%a`. -/
def weekdayAbbrevs : List (List Char) :=
  (["mon", "tue", "wed", "thu", "fri", "sat", "sun"]).map String.data

/-- English abbreviated month names matched by `%b`, in month order. -/
def monthAbbrevs : List (List Char) :=
  (["jan", "feb", "mar", "apr", "may", "jun",
    "jul", "aug", "sep", "oct", "nov", "dec"]).map String.data

/-- Expect a literal character at the head of the input. -/
def expectChar (c : Char) : List Char → Option (List Char)
  | d :: r => if d = c then some r else none
  | [] => none

/-- Whitespace in a `strptime` format matches one or more whitespace
characters; the following token never starts with whitespace, so the
greedy skip is exact. -/
def skipWs1 : List Char → Option (List Char)
  | c :: cs => if isPySpace c then some (cs.dropWhile isPySpace) else none
  | [] => none

/-- Numeric value of a digit string. -/
def natOfDigits (ds : List Char) : Nat :=
  ds.foldl (fun n c => n * 10 + (c.toNat - 48)) 0

/-- One or two leading digits (`strptime` two-digit numeric fields). -/
def num12 (s : List Char) : Option (Nat × List Char) :=
  let ds := s.takeWhile Char.isDigit
  if ds.length = 1 ∨ ds.length = 2 then
    some (natOfDigits ds, s.dropWhile Char.isDigit)
  else none

/-- Exactly four leading digits (`%Y`). -/
def num4 (s : List Char) : Option (Nat × List Char) :=
  let ds := s.takeWhile Char.isDigit
  if ds.length = 4 then some (natOfDigits ds, s.dropWhile Char.isDigit)
  else none

/-- The `%d` field: one or two digits in 1..31, or a space followed by a
single non-zero digit. -/
def numDay : List Char → Option (Nat × List Char)
  | ' ' :: c :: r =>
    if c.isDigit && c != '0' then some (c.toNat - 48, r) else none
  | s => do
    let (d, r) ← num12 s
    guard (1 ≤ d ∧ d ≤ 31)
    some (d, r)

/-- Exactly two leading digits, as in the `%z` offset. -/
def twoDigits : List Char → Option (Nat × List Char)
  | a :: b :: r =>
    if a.isDigit && b.isDigit then
      some ((a.toNat - 48) * 10 + (b.toNat - 48), r)
    else none
  | _ => none

/-- Skip one optional colon (the `:?` parts of the `%z` pattern). -/
def skipColon : List Char → List Char
  | ':' :: r => r
  | r => r

/-- Numeric UTC offset of `%z` after the sign: `HH[:]MM` with optional
`[:]SS`; offsets of a day or more make `timezone()` raise, which the
script catches, so they parse to `none` here. -/
def parseTzOff (sign : Int) (r : List Char) : Option (Int × List Char) := do
  let (hh, r1) ← twoDigits r
  let (mm, r2) ← twoDigits (skipColon r1)
  guard (mm ≤ 59)
  let base := hh * 3600 + mm * 60
  let (total, rest) :=
    match twoDigits (skipColon r2) with
    | some (ss, r3) => if ss ≤ 59 then (base + ss, r3) else (base, r2)
    | none => (base, r2)
  guard (total < 86400)
  some (sign * (total : Int), rest)

/-- The `%z` field: `Z` (case-sensitive) or a signed numeric offset. -/
def parseTz : List Char → Option (Int × List Char)
  | 'Z' :: r => some (0, r)
  | '+' :: r => parseTzOff 1 r
  | '-' :: r => parseTzOff (-1) r
  | _ => none

/-- Time-of-day, timezone and validity part of the fixed RSS date format:
`%H:%M:%S %z` plus the datetime constructor's validity checks (real
calendar day, year at least 1); invalid values raise, i.e. return `none`. -/
def parseRssTime (y m d : Nat) (r9 : List Char) : Option PyDateTime :=
  match num12 r9 with
  | none => none
  | some (hh, r10) =>
  if hh ≤ 23 then
    match expectChar ':' r10 with
    | none => none
    | some r11 =>
    match num12 r11 with
    | none => none
    | some (mi, r12) =>
    if mi ≤ 59 then
      match expectChar ':' r12 with
      | none => none
      | some r13 =>
      match num12 r13 with
      | none => none
      | some (ss, r14) =>
      if ss ≤ 59 then
        match skipWs1 r14 with
        | none => none
        | some r15 =>
        match parseTz r15 with
        | none => none
        | some (tz, r16) =>
        if r16 = [] ∧ 1 ≤ y ∧ 1 ≤ d ∧ d ≤ daysInMonth y m then
          some ⟨y, m, d, hh, mi, ss, tz⟩
        else none
      else none
    else none
  else none

/-- Day, month and year part of the fixed RSS date format:
`%d %b %Y ` followed by the time part. -/
def parseRssDatePart (r3 : List Char) : Option PyDateTime :=
  match numDay r3 with
  | none => none
  | some (d, r4) =>
  match skipWs1 r4 with
  | none => none
  | some r5 =>
  match tryAlts monthAbbrevs 0 r5 with
  | none => none
  | some (mIdx, r6) =>
  match skipWs1 r6 with
  | none => none
  | some r7 =>
  match num4 r7 with
  | none => none
  | some (y, r8) =>
  match skipWs1 r8 with
  | none => none
  | some r9 => parseRssTime y (mIdx + 1) d r9

/-- Model of `datetime.strptime(s, "%a, %d %b %Y %H:%M:%S %z")`: the fixed
RSS date format used throughout the script. -/
def strptimeRss (s : String) : Option PyDateTime :=
  match tryAlts weekdayAbbrevs 0 s.data with
  | none => none
  | some (_, r1) =>
  match expectChar ',' r1 with
  | none => none
  | some r2 =>
  match skipWs1 r2 with
  | none => none
  | some r3 => parseRssDatePart r3

/-- Model of `parse_pub_date`: parse an RSS date for comparison, `None`
(here `none`) when parsing raises. -/
def parse_pub_date (s : String) : Option PyDateTime :=
  strptimeRss s

/-- Two-digit zero-padded rendering (`%d`, `%m` of `strftime`). -/
def pad2 (n : Nat) : String :=
  if n < 10 then "0" ++ toString n else toString n

/-- Rendering of `dt.strftime("%d/%m/%Y")`. -/
def renderDMY (d : PyDateTime) : String :=
  pad2 d.day ++ "/" ++ pad2 d.month ++ "/" ++ toString d.year

/-- Model of `format_date`: reformat a parsable RSS date to `DD/MM/YYYY`;
on `ValueError` or `TypeError` return `date_str or ""` (so `none` — the
Python `None` — and the empty string both give `""`, and any other
unparsable string passes through unchanged). -/
def format_date : Option String → String
  | none => ""
  | some s =>
    match strptimeRss s with
    | some dt => renderDMY dt
    | none => s

/-- Model of `datetime.strptime(s, "%d/%m/%Y")` followed by
`replace(tzinfo=timezone.utc)`. -/
def parseDMY (s : List Char) : Option PyDateTime :=
  match numDay s with
  | none => none
  | some (d, r1) =>
  match expectChar '/' r1 with
  | none => none
  | some r2 =>
  match num12 r2 with
  | none => none
  | some (m, r3) =>
  if 1 ≤ m ∧ m ≤ 12 then
    match expectChar '/' r3 with
    | none => none
    | some r4 =>
    match num4 r4 with
    | none => none
    | some (y, r5) =>
    if r5 = [] ∧ 1 ≤ y ∧ d ≤ daysInMonth y m then
      some ⟨y, m, d, 0, 0, 0, 0⟩
    else none
  else none

/-- Model of `datetime.strptime(s, "%Y-%m-%d")` followed by
`replace(tzinfo=timezone.utc)`. -/
def parseYMD (s : List Char) : Option PyDateTime :=
  match num4 s with
  | none => none
  | some (y, r1) =>
  match expectChar '-' r1 with
  | none => none
  | some r2 =>
  match num12 r2 with
  | none => none
  | some (m, r3) =>
  if 1 ≤ m ∧ m ≤ 12 then
    match expectChar '-' r3 with
    | none => none
    | some r4 =>
    match numDay r4 with
    | none => none
    | some (d, r5) =>
    if r5 = [] ∧ 1 ≤ y ∧ d ≤ daysInMonth y m then
      some ⟨y, m, d, 0, 0, 0, 0⟩
    else none
  else none

/-- Model of `parse_user_date`: try `DD/MM/YYYY` then `YYYY-MM-DD`; the
`ValueError` raised when both fail is modelled by `none`. -/
def parse_user_date (s : String) : Option PyDateTime :=
  match parseDMY s.data with
  | some dt => some dt
  | none => parseYMD s.data

/-- Model of a `feedparser` entry, restricted to the fields the script
reads.  `entry.get(k, "")` on an absent field is `Option.getD _ ""`;
`tags` holds the `term` strings of the entry's tag objects. -/
structure Entry where
  link : Option String := none
  title : Option String := none
  description : Option String := none
  summary : Option String := none
  published : Option String := none
  tags : List String := []
deriving DecidableEq

/-- The de-duplication key `entry.get("link", "")`. -/
def linkOf (e : Entry) : String :=
  e.link.getD ""

/-- Split the input at the first `>`, returning the characters before it
and the rest after it. -/
def splitAtGt : List Char → Option (List Char × List Char)
  | [] => none
  | c :: cs =>
    if c = '>' then some ([], cs)
    else
      match splitAtGt cs with
      | some (b, a) => some (c :: b, a)
      | none => none

/-- One pass of `re.sub(r"<[^>]+>", "", text)` with explicit fuel (any
fuel of at least the input length is exact): at a `<`, a tag needs at
least one non-`>` character and a closing `>`; otherwise the character is
kept and scanning resumes at the next position, as the regex engine does. -/
def stripTagsGo : Nat → List Char → List Char
  | 0, _ => []
  | _, [] => []
  | fuel + 1, c :: cs =>
    if c = '<' then
      match splitAtGt cs with
      | some (b, a) => if b = [] then c :: stripTagsGo fuel cs else stripTagsGo fuel a
      | none => c :: stripTagsGo fuel cs
    else c :: stripTagsGo fuel cs

/-- Model of `re.sub(r"<[^>]+>", "", text)`. -/
def stripTags (l : List Char) : List Char :=
  stripTagsGo l.length l

/-- Modelled external collaborator: `html.unescape`.  The script treats
entity decoding as a black box from the standard library; this model
decodes the basic named character references (`amp`, `lt`, `gt`, `quot`,
`apos`, `nbsp`), which is the behaviour the script relies on, and leaves
other text unchanged. -/
def unesc : List Char → List Char
  | [] => []
  | '&' :: 'a' :: 'm' :: 'p' :: ';' :: r => '&' :: unesc r
  | '&' :: 'l' :: 't' :: ';' :: r => '<' :: unesc r
  | '&' :: 'g' :: 't' :: ';' :: r => '>' :: unesc r
  | '&' :: 'q' :: 'u' :: 'o' :: 't' :: ';' :: r => '"' :: unesc r
  | '&' :: 'a' :: 'p' :: 'o' :: 's' :: ';' :: r => Char.ofNat 39 :: unesc r
  | '&' :: 'n' :: 'b' :: 's' :: 'p' :: ';' :: r => Char.ofNat 160 :: unesc r
  | c :: cs => c :: unesc cs

/-- Model of `re.sub(r"\s+", " ", text)`: every maximal run of whitespace
becomes a single space.  The flag tracks whether the previous character
was inside a run already replaced. -/
def collapseGo : Bool → List Char → List Char
  | _, [] => []
  | inRun, c :: cs =>
    if isPySpace c then
      if inRun then collapseGo true cs else ' ' :: collapseGo true cs
    else c :: collapseGo false cs

/-- Model of `str.strip()`: drop leading and trailing whitespace. -/
def pyStrip (l : List Char) : List Char :=
  ((l.dropWhile isPySpace).reverse.dropWhile isPySpace).reverse

/-- Model of `strip_html`: remove tags, decode entities, collapse
whitespace runs to single spaces, trim. -/
def strip_html (s : String) : String :=
  String.mk (pyStrip (collapseGo false (unesc (stripTags s.data))))

/-- The description source: `entry.get("description", "") or
entry.get("summary", "")` — the summary is used when the description is
empty or absent. -/
def descOrSummary (e : Entry) : String :=
  let d := e.description.getD ""
  if d = "" then e.summary.getD "" else d

/-- The fixed number of category columns. -/
def MAX_CATEGORIES : Nat := 6

/-- One normalized output row of the script. -/
structure Row where
  titre : String
  description : String
  url : String
  categories : List String
  date : String
deriving DecidableEq

/-- Normalization of one entry into a row (the dictionary built in the
body of `parse_entries`). -/
def normalizeEntry (e : Entry) : Row :=
  { titre := e.title.getD ""
  , description := strip_html (descOrSummary e)
  , url := e.link.getD ""
  , categories := (e.tags ++ List.replicate MAX_CATEGORIES "").take MAX_CATEGORIES
  , date := format_date (some (e.published.getD "")) }

/-- Skip condition `date_from and pub < date_from` of the date filter. -/
def beforeFrom : Option PyDateTime → PyDateTime → Bool
  | some a, pub => decide (toAbsSecs pub < toAbsSecs a)
  | none, _ => false

/-- The upper bound `date_to.replace(hour=23, minute=59, second=59)`. -/
def endOfDay (b : PyDateTime) : PyDateTime :=
  { b with hour := 23, minute := 59, second := 59 }

/-- Skip condition `date_to and pub > date_to.replace(hour=23, minute=59,
second=59)` of the date filter. -/
def afterTo : Option PyDateTime → PyDateTime → Bool
  | some b, pub => decide (toAbsSecs (endOfDay b) < toAbsSecs pub)
  | none, _ => false

/-- The date filter of `parse_entries`: when a bound is given and the
publication date parses, the entry is kept iff it is inside the window;
an unparsable date is never filtered. -/
def keepByDate (df dt : Option PyDateTime) (e : Entry) : Bool :=
  if df.isSome || dt.isSome then
    match parse_pub_date (e.published.getD "") with
    | some pub =>
      if beforeFrom df pub then false
      else if afterTo dt pub then false
      else true
    | none => true
  else true

/-- Model of `parse_entries`: filter by the optional date window, then
normalize each surviving entry, preserving order. -/
def parse_entries : List Entry → Option PyDateTime → Option PyDateTime → List Row
  | [], _, _ => []
  | e :: es, df, dt =>
    if keepByDate df dt e then normalizeEntry e :: parse_entries es df dt
    else parse_entries es df dt

/-- The fixed column schema of `create_ods` (name, width in cm). -/
def COLUMNS : List (String × Nat) :=
  [("Titre", 8), ("Description", 16), ("URL sur uneiaparjour.fr", 10),
   ("Catégorie 1", 5), ("Catégorie 2", 5), ("Catégorie 3", 5),
   ("Catégorie 4", 5), ("Catégorie 5", 5), ("Catégorie 6", 5),
   ("Date de publication", 6)]

/-- The cell values of the single table written by `create_ods`: a header
row of the column names and one data row per normalized row.  Styling and
the container format are external to this model. -/
structure OdsTable where
  header : List String
  dataRows : List (List String)
deriving DecidableEq

/-- Model of `create_ods`, restricted to the cell contents it writes. -/
def create_ods (rows : List Row) : OdsTable :=
  { header := COLUMNS.map (fun c => c.1)
  , dataRows := rows.map (fun r =>
      [r.titre, r.description, r.url] ++ r.categories ++ [r.date]) }

/-- Model of a parsed URL (`urllib.parse.urlparse` result) restricted to
what `build_paged_url` touches: everything outside the query is kept in
`base`, and the query is the ordered list of its `key=value` parameters
in decoded form (a parameter with no `=` or with an empty value has
value `""`). -/
structure Url where
  base : String
  query : List (String × String) := []
deriving DecidableEq

/-- Append a value to a key of the ordered parameter dictionary, adding
the key at the end when absent (Python dict insertion order). -/
def addParam (k v : String) : List (String × List String) → List (String × List String)
  | [] => [(k, [v])]
  | (k0, vs) :: rest =>
    if k0 = k then (k0, vs ++ [v]) :: rest else (k0, vs) :: addParam k v rest

/-- Accumulating pass of `urllib.parse.parse_qs` with its default
`keep_blank_values=False`: parameters whose value is blank are dropped;
the others are grouped by key, keys in first-occurrence order, values in
occurrence order. -/
def parseQsGo (acc : List (String × List String)) : List (String × String) → List (String × List String)
  | [] => acc
  | (k, v) :: rest => parseQsGo (if v = "" then acc else addParam k v acc) rest

/-- Model of `urllib.parse.parse_qs` on the decoded parameter list. -/
def pyParseQs (q : List (String × String)) : List (String × List String) :=
  parseQsGo [] q

/-- Model of `params[k] = vs` on the ordered dictionary: overwrite the
value list of `k` in place, or append the key when absent. -/
def setKey (k : String) (vs : List String) : List (String × List String) → List (String × List String)
  | [] => [(k, vs)]
  | (k0, vs0) :: rest =>
    if k0 = k then (k0, vs) :: rest else (k0, vs0) :: setKey k vs rest

/-- Model of `urllib.parse.urlencode(params, doseq=True)`: flatten the
dictionary back into an ordered parameter list. -/
def urlencodeDoseq (d : List (String × List String)) : List (String × String) :=
  d.flatMap (fun kv => kv.2.map (fun v => (kv.1, v)))

/-- Model of `build_paged_url`: re-encode the query with `paged` set to
the page number, leaving the rest of the URL unchanged. -/
def build_paged_url (u : Url) (page : Nat) : Url :=
  { u with query := urlencodeDoseq (setKey "paged" [toString page] (pyParseQs u.query)) }

/-- The URL requested for a page by the fetch loop:
`build_paged_url(url, page) if paginate and page > 1 else url`. -/
def pageUrl (paginate : Bool) (page : Nat) (u : Url) : Url :=
  if paginate ∧ 1 < page then build_paged_url u page else u

/-- Model of a `feedparser.parse` result, restricted to what the fetch
loop inspects: the entry list, the `bozo` parse-failure flag, and the
optional HTTP status. -/
structure Page where
  entries : List Entry
  bozo : Bool := false
  status : Option Nat := none
deriving DecidableEq

/-- The per-page accumulation loop of `fetch_all_entries`: append each
entry whose link has not been seen, recording its link and counting the
newly added entries.  Returns the seen set, the accumulated list and the
new-entry count. -/
def addNew : List Entry → List String → List Entry → Nat → List String × List Entry × Nat
  | [], seen, acc, cnt => (seen, acc, cnt)
  | e :: es, seen, acc, cnt =>
    if linkOf e ∈ seen then addNew es seen acc cnt
    else addNew es (linkOf e :: seen) (acc ++ [e]) (cnt + 1)

/-- Truthiness-guarded cap test `max_items and len(all_entries) >=
max_items`: `None` and `0` are falsy, so they never trigger the cap. -/
def maxReached (maxItems : Option Int) (n : Nat) : Bool :=
  match maxItems with
  | none => false
  | some m => decide (m ≠ 0) && decide (m ≤ (n : Int))

/-- Python list slice `l[:m]`, including the negative-index case. -/
def pySliceTo (l : List Entry) (m : Int) : List Entry :=
  if 0 ≤ m then l.take m.toNat else l.take (l.length - m.natAbs)

/-- Result of a fetch run: `fatal` models the `sys.exit(1)` taken when
page 1 fails to parse with no entries; `ok` carries the accumulated
entries of every other termination path. -/
inductive FetchOut
  | fatal
  | ok (entries : List Entry)
deriving DecidableEq

/-- The `while True` loop of `fetch_all_entries`, with explicit fuel
(`none` means the fuel ran out before the loop terminated; any
sufficiently large fuel is exact).  `src` is the external
fetch-and-parse collaborator, mapping the requested URL to a page. -/
def fetchGo (src : Url → Page) (u : Url) (paginate : Bool) (maxItems : Option Int) :
    Nat → Nat → List String → List Entry → Option FetchOut
  | 0, _, _, _ => none
  | fuel + 1, page, seen, acc =>
    if (src (pageUrl paginate page u)).bozo ∧ (src (pageUrl paginate page u)).entries = [] then
      if page = 1 then some .fatal else some (.ok acc)
    else if (src (pageUrl paginate page u)).entries = [] then some (.ok acc)
    else if (src (pageUrl paginate page u)).status = some 404 then some (.ok acc)
    else
      let r := addNew (src (pageUrl paginate page u)).entries seen acc 0
      if r.2.2 = 0 then some (.ok r.2.1)
      else if maxReached maxItems r.2.1.length then
        some (.ok (pySliceTo r.2.1 (maxItems.getD 0)))
      else if paginate = false then some (.ok r.2.1)
      else fetchGo src u paginate maxItems fuel (page + 1) r.1 r.2.1

/-- Model of `fetch_all_entries`: run the loop from page 1 with nothing
seen and nothing accumulated. -/
def fetch_all_entries (src : Url → Page) (u : Url) (paginate : Bool)
    (maxItems : Option Int) (fuel : Nat) : Option FetchOut :=
  fetchGo src u paginate maxItems fuel 1 [] []

/-- Outcome of a whole run of `main` (after CLI parsing): a non-zero exit
with no output file, or a written output file with the given table. -/
inductive RunOutcome
  | exitFail
  | wrote (table : OdsTable)
deriving DecidableEq

/-- The `--from`/`--to` sanity check `date_from and date_to and date_from
> date_to` of `main`. -/
def fromAfterTo : Option PyDateTime → Option PyDateTime → Bool
  | some a, some b => decide (toAbsSecs b < toAbsSecs a)
  | _, _ => false

/-- Model of `main` after argument parsing: check the date window, fetch,
abort when nothing was fetched, otherwise filter, normalize and write the
output table. -/
def mainRun (src : Url → Page) (u : Url) (paginate : Bool) (maxItems : Option Int)
    (df dt : Option PyDateTime) (fuel : Nat) : Option RunOutcome :=
  if fromAfterTo df dt then some .exitFail
  else
    match fetch_all_entries src u paginate maxItems fuel with
    | none => none
    | some .fatal => some .exitFail
    | some (.ok entries) =>
      if entries = [] then some .exitFail
      else some (.wrote (create_ods (parse_entries entries df dt)))

/-- The default feed URL of the script, with no query parameters. -/
def u0 : Url :=
  { base := "https://www.uneiaparjour.fr/feed/" }

/-- A synthetic feed entry with a distinct link, for concrete runs. -/
def mkEntry (i : Nat) : Entry :=
  { link := some ("https://www.uneiaparjour.fr/a" ++ toString i)
  , title := some ("T" ++ toString i)
  , published := some "Wed, 01 Jan 2025 12:00:00 +0000" }

/-- Twenty distinct synthetic entries. -/
def entries20 : List Entry :=
  (List.range 20).map mkEntry

/-- Page number a requested URL stands for in the synthetic feeds: the
base URL is page 1, `build_paged_url u0 n` is page `n`. -/
def pageNum (v : Url) : Nat :=
  if v = u0 then 1
  else (((List.range' 2 29).find? (fun n => v = build_paged_url u0 n)).getD 0)

/-- A synthetic paged feed offering `entries20` three per page
(pages 1 to 7), with every later page empty. -/
def feed20 (v : Url) : Page :=
  let n := pageNum v
  if n = 0 then { entries := [] }
  else { entries := (entries20.drop (3 * (n - 1))).take 3 }

/-- First-occurrence de-duplication by link, relative to an already-seen
set: the reference characterization of the accumulation loop. -/
def dedupGo (seen : List String) : List Entry → List Entry
  | [] => []
  | e :: es =>
    if linkOf e ∈ seen then dedupGo seen es
    else e :: dedupGo (linkOf e :: seen) es

/-- The seen set after scanning a list of entries. -/
def seenAfter (seen : List String) : List Entry → List String
  | [] => seen
  | e :: es =>
    if linkOf e ∈ seen then seenAfter seen es
    else seenAfter (linkOf e :: seen) es

/-- First-occurrence de-duplication of a whole entry sequence. -/
def dedupByLink (l : List Entry) : List Entry :=
  dedupGo [] l

/-- Concatenation of the entries of the first `k` pages of a feed, in the
order the fetch loop requests them. -/
def concatPages (src : Url → Page) (u : Url) (paginate : Bool) (k : Nat) : List Entry :=
  (List.range k).flatMap (fun i => (src (pageUrl paginate (i + 1) u)).entries)

lemma addNew_acc : ∀ (es : List Entry) (seen : List String) (acc : List Entry) (cnt : Nat),
    (addNew es seen acc cnt).2.1 = acc ++ dedupGo seen es := by
  intro es
  induction es with
  | nil => intro seen acc cnt; simp [addNew, dedupGo]
  | cons e es ih =>
    intro seen acc cnt
    by_cases h : linkOf e ∈ seen
    · simp [addNew, dedupGo, h, ih]
    · simp [addNew, dedupGo, h, ih]

lemma addNew_seen : ∀ (es : List Entry) (seen : List String) (acc : List Entry) (cnt : Nat),
    (addNew es seen acc cnt).1 = seenAfter seen es := by
  intro es
  induction es with
  | nil => intro seen acc cnt; simp [addNew, seenAfter]
  | cons e es ih =>
    intro seen acc cnt
    by_cases h : linkOf e ∈ seen
    · simp [addNew, seenAfter, h, ih]
    · simp [addNew, seenAfter, h, ih]

lemma addNew_cnt : ∀ (es : List Entry) (seen : List String) (acc : List Entry) (cnt : Nat),
    (addNew es seen acc cnt).2.2 = cnt + (dedupGo seen es).length := by
  intro es
  induction es with
  | nil => intro seen acc cnt; simp [addNew, dedupGo]
  | cons e es ih =>
    intro seen acc cnt
    by_cases h : linkOf e ∈ seen
    · simp [addNew, dedupGo, h, ih]
    · simp [addNew, dedupGo, h, ih]
      omega

lemma dedupGo_append : ∀ (xs ys : List Entry) (seen : List String),
    dedupGo seen (xs ++ ys) = dedupGo seen xs ++ dedupGo (seenAfter seen xs) ys := by
  intro xs
  induction xs with
  | nil => intro ys seen; simp [dedupGo, seenAfter]
  | cons e es ih =>
    intro ys seen
    by_cases h : linkOf e ∈ seen
    · simp [dedupGo, seenAfter, h, ih]
    · simp [dedupGo, seenAfter, h, ih]

lemma seenAfter_append : ∀ (xs ys : List Entry) (seen : List String),
    seenAfter seen (xs ++ ys) = seenAfter (seenAfter seen xs) ys := by
  intro xs
  induction xs with
  | nil => intro ys seen; simp [seenAfter]
  | cons e es ih =>
    intro ys seen
    by_cases h : linkOf e ∈ seen
    · simp [seenAfter, h, ih]
    · simp [seenAfter, h, ih]

lemma mem_seenAfter : ∀ (l : List Entry) (seen : List String) (x : String),
    x ∈ seenAfter seen l ↔ x ∈ seen ∨ x ∈ l.map linkOf := by
  intro l
  induction l with
  | nil => intro seen x; simp [seenAfter]
  | cons e es ih =>
    intro seen x
    by_cases h : linkOf e ∈ seen
    · simp only [seenAfter, h, ite_true, ih, List.map_cons, List.mem_cons]
      constructor
      · rintro (hx | hx)
        · exact Or.inl hx
        · exact Or.inr (Or.inr hx)
      · rintro (hx | hx | hx)
        · exact Or.inl hx
        · exact Or.inl (hx ▸ h)
        · exact Or.inr hx
    · simp only [seenAfter, h, ite_false, ih, List.mem_cons, List.map_cons]
      tauto

lemma dedupGo_nodup : ∀ (l : List Entry) (seen : List String),
    ((dedupGo seen l).map linkOf).Nodup ∧
      ∀ x ∈ (dedupGo seen l).map linkOf, x ∉ seen := by
  intro l
  induction l with
  | nil => intro seen; simp [dedupGo]
  | cons e es ih =>
    intro seen
    by_cases h : linkOf e ∈ seen
    · simpa [dedupGo, h] using ih seen
    · have ihs := ih (linkOf e :: seen)
      have hd : dedupGo seen (e :: es) = e :: dedupGo (linkOf e :: seen) es := by
        simp [dedupGo, h]
      rw [hd]
      constructor
      · rw [List.map_cons, List.nodup_cons]
        exact ⟨fun hmem => (ihs.2 _ hmem) (List.mem_cons_self _ _), ihs.1⟩
      · intro x hx
        rcases List.mem_cons.mp (List.map_cons linkOf e _ ▸ hx) with hx1 | hx1
        · exact hx1 ▸ h
        · intro hxs
          exact (ihs.2 _ hx1) (List.mem_cons_of_mem _ hxs)

lemma dedupGo_nil_of_seen : ∀ (l : List Entry) (seen : List String),
    (∀ e ∈ l, linkOf e ∈ seen) → dedupGo seen l = [] := by
  intro l
  induction l with
  | nil => intro seen _; rfl
  | cons e es ih =>
    intro seen hall
    have he : linkOf e ∈ seen := hall e (List.mem_cons_self _ _)
    simp only [dedupGo, he, if_pos]
    exact ih seen (fun x hx => hall x (List.mem_cons_of_mem _ hx))

lemma pySliceTo_isPrefix (l : List Entry) (m : Int) : pySliceTo l m <+: l := by
  unfold pySliceTo
  split
  · exact List.take_prefix _ _
  · exact List.take_prefix _ _

lemma take_append_replicate (xs : List String) (n : Nat) (s : String) :
    (xs ++ List.replicate n s).take n = xs.take n ++ List.replicate (n - xs.length) s := by
  rw [List.take_append_eq_append_take, List.take_replicate,
    Nat.min_eq_left (Nat.sub_le n xs.length)]

lemma length_take_append_replicate (xs : List String) (n : Nat) (s : String) :
    ((xs ++ List.replicate n s).take n).length = n := by
  rw [List.length_take, List.length_append, List.length_replicate]
  exact Nat.min_eq_left (Nat.le_add_left n xs.length)

/-- C5: every normalized row produced by `parse_entries` has a categories
sequence of exactly `MAX_CATEGORIES` (6) elements: the source entry's
category labels in their original order, truncated to the first 6 and
right-padded with empty strings to length 6. -/
theorem c5_categories_shape (entries : List Entry) (df dt : Option PyDateTime) (r : Row)
    (hr : r ∈ parse_entries entries df dt) :
    r.categories.length = MAX_CATEGORIES ∧
      ∃ e ∈ entries, r.categories =
        e.tags.take MAX_CATEGORIES ++
          List.replicate (MAX_CATEGORIES - e.tags.length) "" := by
  induction entries with
  | nil => simp [parse_entries] at hr
  | cons e es ih =>
    have hshape : (normalizeEntry e).categories =
        e.tags.take MAX_CATEGORIES ++
          List.replicate (MAX_CATEGORIES - e.tags.length) "" := by
      simp [normalizeEntry, take_append_replicate]
    have hlen : (normalizeEntry e).categories.length = MAX_CATEGORIES := by
      simp [normalizeEntry, length_take_append_replicate]
    rw [parse_entries] at hr
    by_cases hk : keepByDate df dt e
    · rw [if_pos hk] at hr
      rcases List.mem_cons.mp hr with hr | hr
      · subst hr
        exact ⟨hlen, e, List.mem_cons_self _ _, hshape⟩
      · rcases ih hr with ⟨h1, e1, he1, h2⟩
        exact ⟨h1, e1, List.mem_cons_of_mem _ he1, h2⟩
    · rw [if_neg hk] at hr
      rcases ih hr with ⟨h1, e1, he1, h2⟩
      exact ⟨h1, e1, List.mem_cons_of_mem _ he1, h2⟩

/-- Witness for C5 at a concrete run: an entry with eight category labels
is truncated to six, and one with a single label is padded to six. -/
theorem c5_categories_shape_witness :
    ({ titre := "", description := "", url := "", date := ""
     , categories := ["a", "b", "c", "d", "e", "f"] } : Row).categories.length
        = MAX_CATEGORIES ∧
      ∃ e ∈ [({ tags := ["a", "b", "c", "d", "e", "f", "g", "h"] } : Entry)],
        (["a", "b", "c", "d", "e", "f"] : List String) =
          e.tags.take MAX_CATEGORIES ++
            List.replicate (MAX_CATEGORIES - e.tags.length) "" :=
  c5_categories_shape [{ tags := ["a", "b", "c", "d", "e", "f", "g", "h"] }]
    none none _ (by decide)

/-- C7: `format_date` renders every parsable RSS date as `DD/MM/YYYY`,
passes any unparsable non-empty string through unchanged, returns the
empty string for an absent (`None` or empty) date, and is deterministic
on re-application to the same raw input. -/
theorem c7_format_date :
    (∀ s dt, strptimeRss s = some dt → format_date (some s) = renderDMY dt) ∧
      (∀ s, s ≠ "" → strptimeRss s = none → format_date (some s) = s) ∧
      format_date none = "" ∧ format_date (some "") = "" ∧
      (∀ d : Option String, format_date d = format_date d) := by
  refine ⟨?_, ?_, rfl, rfl, fun _ => rfl⟩
  · intro s dt h
    simp [format_date, h]
  · intro s _ h
    simp [format_date, h]

/-- Witness for C7 at concrete inputs: a parsable RSS date and an
unparsable string. -/
theorem c7_format_date_witness :
    format_date (some "Wed, 01 Jan 2025 12:00:00 +0000") = "01/01/2025" ∧
      format_date (some "garbage") = "garbage" := by
  constructor
  · have h := c7_format_date.1 "Wed, 01 Jan 2025 12:00:00 +0000"
      ⟨2025, 1, 1, 12, 0, 0, 0⟩ (by rfl)
    rw [h]
    rfl
  · exact c7_format_date.2.1 "garbage" (by decide) (by rfl)

lemma fetchGo_max_zero (src : Url → Page) (u : Url) (paginate : Bool) :
    ∀ (fuel page : Nat) (seen : List String) (acc : List Entry),
      fetchGo src u paginate (some 0) fuel page seen acc =
        fetchGo src u paginate none fuel page seen acc := by
  intro fuel
  induction fuel with
  | zero => intros; rfl
  | succ n ih =>
    intro page seen acc
    rw [fetchGo, fetchGo]
    have hm0 : ∀ k, maxReached (some 0) k = false := by
      intro k; simp [maxReached]
    have hmn : ∀ k, maxReached none k = false := fun _ => rfl
    simp [hm0, hmn, ih]

/-- C10: a max-item count of 0 is falsy, so the cap is never applied and
the run behaves exactly like an unlimited one; in particular it can
return 20 entries rather than zero. -/
theorem c10_max_zero_unlimited :
    (∀ (src : Url → Page) (u : Url) (paginate : Bool) (fuel : Nat),
      fetch_all_entries src u paginate (some 0) fuel =
        fetch_all_entries src u paginate none fuel) ∧
      fetch_all_entries feed20 u0 true (some 0) 9 = some (.ok entries20) ∧
      entries20.length = 20 :=
  ⟨fun src u paginate fuel => fetchGo_max_zero src u paginate fuel 1 [] [],
    by rfl, by rfl⟩

lemma parse_entries_eq_filter_map (entries : List Entry) (df dt : Option PyDateTime) :
    parse_entries entries df dt =
      (entries.filter (keepByDate df dt)).map normalizeEntry := by
  induction entries with
  | nil => rfl
  | cons e es ih =>
    by_cases h : keepByDate df dt e
    · simp [parse_entries, List.filter_cons, h, ih]
    · simp [parse_entries, List.filter_cons, h, ih]

lemma keepByDate_window (a b : PyDateTime) (e : Entry) :
    keepByDate (some a) (some b) e =
      (match parse_pub_date (e.published.getD "") with
       | none => true
       | some p =>
         decide (toAbsSecs a ≤ toAbsSecs p ∧ toAbsSecs p ≤ toAbsSecs (endOfDay b))) := by
  unfold keepByDate
  simp only [Option.isSome_some, Bool.true_or, if_true]
  cases hp : parse_pub_date (e.published.getD "") with
  | none => rfl
  | some p =>
    simp only [beforeFrom, afterTo]
    by_cases h1 : toAbsSecs p < toAbsSecs a
    · have hno : ¬(toAbsSecs a ≤ toAbsSecs p ∧ toAbsSecs p ≤ toAbsSecs (endOfDay b)) := by
        intro hc
        omega
      simp [h1, hno]
    · by_cases h2 : toAbsSecs (endOfDay b) < toAbsSecs p
      · have hno : ¬(toAbsSecs a ≤ toAbsSecs p ∧ toAbsSecs p ≤ toAbsSecs (endOfDay b)) := by
          intro hc
          omega
        simp [h1, h2, hno]
      · have hyes : toAbsSecs a ≤ toAbsSecs p ∧ toAbsSecs p ≤ toAbsSecs (endOfDay b) := by
          constructor <;> omega
        simp [h1, h2, hyes]

lemma parseDMY_time_fields : ∀ (s : List Char) (d : PyDateTime),
    parseDMY s = some d → d.hour = 0 ∧ d.minute = 0 ∧ d.second = 0 := by
  intro s d h
  unfold parseDMY at h
  repeat' split at h
  all_goals simp_all
  all_goals (cases h; exact ⟨rfl, rfl, rfl⟩)

lemma parseYMD_time_fields : ∀ (s : List Char) (d : PyDateTime),
    parseYMD s = some d → d.hour = 0 ∧ d.minute = 0 ∧ d.second = 0 := by
  intro s d h
  unfold parseYMD at h
  repeat' split at h
  all_goals simp_all
  all_goals (cases h; exact ⟨rfl, rfl, rfl⟩)

lemma parse_user_date_midnight (s : String) (d : PyDateTime) :
    parse_user_date s = some d → d.hour = 0 ∧ d.minute = 0 ∧ d.second = 0 := by
  intro h
  unfold parse_user_date at h
  cases hd : parseDMY s.data with
  | some dt =>
    rw [hd] at h
    cases h
    exact parseDMY_time_fields _ _ hd
  | none =>
    rw [hd] at h
    exact parseYMD_time_fields _ _ h

/-- C4: with an inclusive window `[from, to]`, `parse_entries` keeps
exactly the entries whose publication date either fails to parse or lies
between the from-date (whose time is 00:00:00, as `parse_user_date`
produces midnight) and 23:59:59 of the to-date, inclusively. -/
theorem c4_date_filter (entries : List Entry) (a b : PyDateTime) :
    parse_entries entries (some a) (some b) =
      (entries.filter (fun e =>
        match parse_pub_date (e.published.getD "") with
        | none => true
        | some p =>
          decide (toAbsSecs a ≤ toAbsSecs p ∧
            toAbsSecs p ≤ toAbsSecs (endOfDay b)))).map normalizeEntry
    ∧ (∀ e : Entry, parse_pub_date (e.published.getD "") = none →
        keepByDate (some a) (some b) e = true)
    ∧ endOfDay b = { b with hour := 23, minute := 59, second := 59 }
    ∧ (∀ (s : String) (d : PyDateTime), parse_user_date s = some d →
        d.hour = 0 ∧ d.minute = 0 ∧ d.second = 0) := by
  refine ⟨?_, ?_, rfl, fun s d h => parse_user_date_midnight s d h⟩
  · rw [parse_entries_eq_filter_map]
    congr 1
    apply List.filter_congr
    intro e _
    exact keepByDate_window a b e
  · intro e hnone
    rw [keepByDate_window]
    rw [hnone]

/-- Ten entries dated 1 to 10 January 2025 (noon UTC), distinct links. -/
def datedEntries : List Entry :=
  (List.range' 1 10).map (fun i =>
    { link := some ("https://www.uneiaparjour.fr/d" ++ toString i)
    , published := some ("Wed, " ++ pad2 i ++ " Jan 2025 12:00:00 +0000") })

/-- An entry whose publication date string does not parse. -/
def unparsableEntry : Entry :=
  { link := some "https://www.uneiaparjour.fr/u"
  , published := some "someday soon" }

/-- Witness for C4 at the spec's example: dates Jan 1–10 with the window
05/01/2025–08/01/2025 keep exactly the four entries dated Jan 5–8 plus
the one with an unparsable date, and the parsed from-date is midnight. -/
theorem c4_date_filter_witness :
    (parse_entries (datedEntries ++ [unparsableEntry])
        (some ⟨2025, 1, 5, 0, 0, 0, 0⟩) (some ⟨2025, 1, 8, 0, 0, 0, 0⟩)).length = 5 ∧
      keepByDate (some ⟨2025, 1, 5, 0, 0, 0, 0⟩) (some ⟨2025, 1, 8, 0, 0, 0, 0⟩)
        unparsableEntry = true ∧
      ((⟨2025, 1, 5, 0, 0, 0, 0⟩ : PyDateTime).hour = 0 ∧
        (⟨2025, 1, 5, 0, 0, 0, 0⟩ : PyDateTime).minute = 0 ∧
        (⟨2025, 1, 5, 0, 0, 0, 0⟩ : PyDateTime).second = 0) := by
  refine ⟨?_, ?_, ?_⟩
  · rw [(c4_date_filter (datedEntries ++ [unparsableEntry])
      ⟨2025, 1, 5, 0, 0, 0, 0⟩ ⟨2025, 1, 8, 0, 0, 0, 0⟩).1]
    rfl
  · exact (c4_date_filter [] ⟨2025, 1, 5, 0, 0, 0, 0⟩ ⟨2025, 1, 8, 0, 0, 0, 0⟩).2.1
      unparsableEntry (by rfl)
  · exact (c4_date_filter [] ⟨2025, 1, 5, 0, 0, 0, 0⟩ ⟨2025, 1, 8, 0, 0, 0, 0⟩).2.2.2
      "05/01/2025" ⟨2025, 1, 5, 0, 0, 0, 0⟩ (by rfl)

/-- A feed whose first page has one entry (dated 1 January 2025) and
whose later pages are empty. -/
def eOut : Entry :=
  { link := some "https://www.uneiaparjour.fr/early"
  , published := some "Wed, 01 Jan 2025 12:00:00 +0000" }

/-- Single-entry feed: page 1 holds `eOut`, every other page is empty. -/
def feedOne (v : Url) : Page :=
  if v = u0 then { entries := [eOut] } else { entries := [] }

/-- An always-empty feed without parse failure. -/
def feedEmpty : Url → Page :=
  fun _ => { entries := [] }

/-- Counterexample to C1 as stated: the fetch stage returns one entry,
the date filter removes it, and the run still writes an output file (a
table with zero data rows) and does not exit with failure — the
empty-result check only inspects the pre-filter entry list. -/
theorem c1_empty_result_cex :
    fetch_all_entries feedOne u0 true none 3 = some (.ok [eOut]) ∧
      parse_entries [eOut] (some ⟨2025, 1, 5, 0, 0, 0, 0⟩)
        (some ⟨2025, 1, 8, 0, 0, 0, 0⟩) = [] ∧
      mainRun feedOne u0 true none (some ⟨2025, 1, 5, 0, 0, 0, 0⟩)
        (some ⟨2025, 1, 8, 0, 0, 0, 0⟩) 3 = some (.wrote (create_ods [])) ∧
      (create_ods []).dataRows = [] ∧
      mainRun feedOne u0 true none (some ⟨2025, 1, 5, 0, 0, 0, 0⟩)
        (some ⟨2025, 1, 8, 0, 0, 0, 0⟩) 3 ≠ some .exitFail :=
  ⟨by rfl, by rfl, by rfl, by rfl, by decide⟩

/-- C1, amended: the empty-result abort happens exactly when the fetch
stage itself returns zero entries; when at least one entry is fetched,
the run always writes the output table of the filtered rows — even when
that table has zero data rows. -/
theorem c1_empty_result_amended :
    (∀ (src : Url → Page) (u : Url) (paginate : Bool) (maxItems : Option Int)
        (df dt : Option PyDateTime) (fuel : Nat),
      fromAfterTo df dt = false →
      fetch_all_entries src u paginate maxItems fuel = some (.ok []) →
      mainRun src u paginate maxItems df dt fuel = some .exitFail) ∧
    (∀ (src : Url → Page) (u : Url) (paginate : Bool) (maxItems : Option Int)
        (df dt : Option PyDateTime) (fuel : Nat) (entries : List Entry),
      fromAfterTo df dt = false →
      fetch_all_entries src u paginate maxItems fuel = some (.ok entries) →
      entries ≠ [] →
      mainRun src u paginate maxItems df dt fuel =
        some (.wrote (create_ods (parse_entries entries df dt)))) := by
  constructor
  · intro src u paginate maxItems df dt fuel hft hf
    simp [mainRun, hft, hf]
  · intro src u paginate maxItems df dt fuel entries hft hf hne
    simp [mainRun, hft, hf, hne]

/-- Witness for the amended C1: the empty fetch aborts, and the
fetched-then-fully-filtered run writes the empty table. -/
theorem c1_empty_result_amended_witness :
    mainRun feedEmpty u0 true none none none 3 = some .exitFail ∧
      mainRun feedOne u0 true none (some ⟨2025, 1, 5, 0, 0, 0, 0⟩)
          (some ⟨2025, 1, 8, 0, 0, 0, 0⟩) 3 =
        some (.wrote (create_ods (parse_entries [eOut]
          (some ⟨2025, 1, 5, 0, 0, 0, 0⟩) (some ⟨2025, 1, 8, 0, 0, 0, 0⟩)))) :=
  ⟨c1_empty_result_amended.1 feedEmpty u0 true none none none 3 (by rfl) (by rfl),
    c1_empty_result_amended.2 feedOne u0 true none
      (some ⟨2025, 1, 5, 0, 0, 0, 0⟩) (some ⟨2025, 1, 8, 0, 0, 0, 0⟩) 3 [eOut]
      (by rfl) (by rfl) (by decide)⟩

lemma fetchGo_cont (src : Url → Page) (u : Url) (paginate : Bool) (maxItems : Option Int)
    (fuel page : Nat) (seen : List String) (acc : List Entry)
    (hb : ¬((src (pageUrl paginate page u)).bozo = true ∧
      (src (pageUrl paginate page u)).entries = []))
    (he : (src (pageUrl paginate page u)).entries ≠ [])
    (hs : (src (pageUrl paginate page u)).status ≠ some 404)
    (hc : (addNew (src (pageUrl paginate page u)).entries seen acc 0).2.2 ≠ 0)
    (hm : maxReached maxItems
      (addNew (src (pageUrl paginate page u)).entries seen acc 0).2.1.length = false)
    (hp : paginate = true) :
    fetchGo src u paginate maxItems (fuel + 1) page seen acc =
      fetchGo src u paginate maxItems fuel (page + 1)
        (addNew (src (pageUrl paginate page u)).entries seen acc 0).1
        (addNew (src (pageUrl paginate page u)).entries seen acc 0).2.1 := by
  subst hp
  rw [fetchGo]
  simp only [if_neg hb, if_neg he, if_neg hs, if_neg hc, hm]
  simp

lemma fetchGo_stop_dup (src : Url → Page) (u : Url) (paginate : Bool) (maxItems : Option Int)
    (fuel page : Nat) (seen : List String) (acc : List Entry)
    (hb : ¬((src (pageUrl paginate page u)).bozo = true ∧
      (src (pageUrl paginate page u)).entries = []))
    (he : (src (pageUrl paginate page u)).entries ≠ [])
    (hs : (src (pageUrl paginate page u)).status ≠ some 404)
    (hc : (addNew (src (pageUrl paginate page u)).entries seen acc 0).2.2 = 0) :
    fetchGo src u paginate maxItems (fuel + 1) page seen acc =
      some (.ok (addNew (src (pageUrl paginate page u)).entries seen acc 0).2.1) := by
  rw [fetchGo]
  simp only [if_neg hb, if_neg he, if_neg hs, hc]
  simp

/-- C2: whenever a positive max-item count `m` is reached or exceeded by
the accumulated list right after appending a page's new entries, the
fetch loop truncates the accumulated list to exactly `m` entries and
terminates; and on a feed offering 20 entries across several pages with
a cap of 5, the output table has exactly 5 data rows. -/
theorem c2_max_truncates (src : Url → Page) (u : Url) (paginate : Bool) (m : Int)
    (fuel page : Nat) (seen : List String) (acc : List Entry)
    (hm : 0 < m)
    (hprev : (acc.length : Int) < m)
    (hb : ¬((src (pageUrl paginate page u)).bozo = true ∧
      (src (pageUrl paginate page u)).entries = []))
    (he : (src (pageUrl paginate page u)).entries ≠ [])
    (hs : (src (pageUrl paginate page u)).status ≠ some 404)
    (hlen : m ≤ ((addNew (src (pageUrl paginate page u)).entries seen acc 0).2.1.length : Int)) :
    (fetchGo src u paginate (some m) (fuel + 1) page seen acc =
        some (.ok (pySliceTo
          (addNew (src (pageUrl paginate page u)).entries seen acc 0).2.1 m)) ∧
      ((pySliceTo (addNew (src (pageUrl paginate page u)).entries seen acc 0).2.1 m).length
          : Int) = m) ∧
      fetch_all_entries feed20 u0 true (some 5) 9 = some (.ok (entries20.take 5)) ∧
      (create_ods (parse_entries (entries20.take 5) none none)).dataRows.length = 5 := by
  have hcnt : (addNew (src (pageUrl paginate page u)).entries seen acc 0).2.2 ≠ 0 := by
    intro h0
    have h1 := addNew_cnt (src (pageUrl paginate page u)).entries seen acc 0
    have h2 := addNew_acc (src (pageUrl paginate page u)).entries seen acc 0
    rw [h1] at h0
    have hdl : (dedupGo seen (src (pageUrl paginate page u)).entries).length = 0 := by omega
    have hacc : (addNew (src (pageUrl paginate page u)).entries seen acc 0).2.1.length
        = acc.length := by
      simp [h2, hdl]
    rw [hacc] at hlen
    omega
  have hlen2 : m.toNat ≤ (addNew (src (pageUrl paginate page u)).entries seen acc 0).2.1.length := by
    omega
  refine ⟨⟨?_, ?_⟩, by rfl, by rfl⟩
  · rw [fetchGo]
    have hmax : maxReached (some m)
        (addNew (src (pageUrl paginate page u)).entries seen acc 0).2.1.length = true := by
      have hne : m ≠ 0 := by omega
      simp [maxReached, hne, hlen]
    simp only [if_neg hb, if_neg he, if_neg hs, if_neg hcnt, hmax]
    simp [pySliceTo]
  · unfold pySliceTo
    rw [if_pos (by omega : (0 : Int) ≤ m)]
    rw [List.length_take, Nat.min_eq_left hlen2]
    omega

/-- Witness for C2 at a concrete one-page feed with cap 1: the loop
returns exactly one entry. -/
theorem c2_max_truncates_witness :
    (fetchGo feedOne u0 true (some 1) 3 1 [] [] =
        some (.ok (pySliceTo (addNew (feedOne (pageUrl true 1 u0)).entries [] [] 0).2.1 1)) ∧
      ((pySliceTo (addNew (feedOne (pageUrl true 1 u0)).entries [] [] 0).2.1 1).length
          : Int) = 1) ∧
      fetch_all_entries feed20 u0 true (some 5) 9 = some (.ok (entries20.take 5)) ∧
      (create_ods (parse_entries (entries20.take 5) none none)).dataRows.length = 5 :=
  c2_max_truncates feedOne u0 true 1 2 1 [] [] (by decide) (by decide)
    (by decide) (by decide) (by decide) (by decide)

/-- A feed whose page 2 returns the same links as page 1 (in another
order), and whose pages contain a duplicated link internally. -/
def feedDup (v : Url) : Page :=
  if v = u0 then { entries := [mkEntry 0, mkEntry 1, mkEntry 0] }
  else { entries := [mkEntry 1, mkEntry 0] }

/-- C9: when page 2 returns only links already seen on page 1, the fetch
loop terminates normally right after processing page 2 and returns
exactly the de-duplicated entry sequence of page 1, with nothing added
by page 2. -/
theorem c9_duplicate_page_stops (src : Url → Page) (u : Url) (p1 p2 : Page) (fuel : Nat)
    (h1 : src u = p1)
    (h2 : src (build_paged_url u 2) = p2)
    (hne1 : p1.entries ≠ [])
    (hs1 : p1.status ≠ some 404)
    (hne2 : p2.entries ≠ [])
    (hs2 : p2.status ≠ some 404)
    (hsub : ∀ e ∈ p2.entries, linkOf e ∈ p1.entries.map linkOf) :
    fetch_all_entries src u true none (fuel + 2) =
      some (.ok (dedupByLink p1.entries)) := by
  have hpu1 : pageUrl true 1 u = u := by simp [pageUrl]
  have hpu2 : pageUrl true 2 u = build_paged_url u 2 := by simp [pageUrl]
  have hsrc1 : src (pageUrl true 1 u) = p1 := by rw [hpu1, h1]
  have hsrc2 : src (pageUrl true 2 u) = p2 := by rw [hpu2, h2]
  have hd1 : dedupGo [] p1.entries ≠ [] := by
    cases hp : p1.entries with
    | nil => exact absurd hp hne1
    | cons e es => simp [dedupGo]
  unfold fetch_all_entries
  rw [show fuel + 2 = (fuel + 1) + 1 from rfl]
  rw [fetchGo_cont src u true none (fuel + 1) 1 [] []
    (by rw [hsrc1]; exact fun hcc => hne1 hcc.2)
    (by rw [hsrc1]; exact hne1)
    (by rw [hsrc1]; exact hs1)
    (by rw [addNew_cnt, hsrc1]; simpa using fun hcc => hd1 (List.length_eq_zero.mp hcc))
    (by rfl) (by rfl)]
  rw [addNew_seen, addNew_acc, hsrc1, List.nil_append]
  have hall : ∀ e ∈ (src (pageUrl true 2 u)).entries,
      linkOf e ∈ seenAfter [] p1.entries := by
    rw [hsrc2]
    intro e hee
    rw [mem_seenAfter]
    exact Or.inr (hsub e hee)
  have hcnt2 : (addNew (src (pageUrl true 2 u)).entries (seenAfter [] p1.entries)
      (dedupGo [] p1.entries) 0).2.2 = 0 := by
    rw [addNew_cnt, dedupGo_nil_of_seen _ _ hall]
    rfl
  rw [fetchGo_stop_dup src u true none fuel 2 (seenAfter [] p1.entries)
    (dedupGo [] p1.entries)
    (by rw [hsrc2]; exact fun hcc => hne2 hcc.2)
    (by rw [hsrc2]; exact hne2)
    (by rw [hsrc2]; exact hs2)
    hcnt2]
  rw [addNew_acc, dedupGo_nil_of_seen _ _ hall, List.append_nil]
  rfl

/-- Witness for C9 at a concrete feed: page 2 repeats page 1's links, so
the run returns page 1's de-duplicated two entries. -/
theorem c9_duplicate_page_stops_witness :
    fetch_all_entries feedDup u0 true none 3 =
      some (.ok (dedupByLink [mkEntry 0, mkEntry 1, mkEntry 0])) :=
  c9_duplicate_page_stops feedDup u0
    { entries := [mkEntry 0, mkEntry 1, mkEntry 0] }
    { entries := [mkEntry 1, mkEntry 0] } 1
    (by decide) (by decide) (by decide) (by decide) (by decide) (by decide)
    (by decide)

/-- C6: the normalized description comes from the entry's description
field, falling back to the summary field when the description is empty
or absent, and is then processed by `strip_html`: markup tags removed,
entities decoded, whitespace runs collapsed to single spaces, and the
result trimmed; in particular the spec's example input normalizes to
`"Hello World"`. -/
theorem c6_description_normalization :
    (∀ e : Entry, (normalizeEntry e).description = strip_html (descOrSummary e)) ∧
      (∀ e : Entry, e.description.getD "" ≠ "" →
        descOrSummary e = e.description.getD "") ∧
      (∀ e : Entry, e.description.getD "" = "" →
        descOrSummary e = e.summary.getD "") ∧
      (∀ s : String, strip_html s =
        String.mk (pyStrip (collapseGo false (unesc (stripTags s.data))))) ∧
      strip_html "<p>Hello&nbsp;<b>World</b></p>" = "Hello World" := by
  refine ⟨fun e => rfl, ?_, ?_, fun s => rfl, by rfl⟩
  · intro e h
    unfold descOrSummary
    rw [if_neg h]
  · intro e h
    unfold descOrSummary
    rw [if_pos h]

/-- Witness for C6 at concrete entries: the spec's example as a
description field, and the summary fallback when the description is
empty. -/
theorem c6_description_normalization_witness :
    (normalizeEntry { description := some "<p>Hello&nbsp;<b>World</b></p>" }).description
        = strip_html (descOrSummary { description := some "<p>Hello&nbsp;<b>World</b></p>" }) ∧
      descOrSummary { description := some "", summary := some "<i>alt</i>" }
        = "<i>alt</i>" ∧
      descOrSummary { description := some "<p>Hello&nbsp;<b>World</b></p>" }
        = "<p>Hello&nbsp;<b>World</b></p>" :=
  ⟨c6_description_normalization.1 _,
    (c6_description_normalization.2.2.1
      { description := some "", summary := some "<i>alt</i>" } (by rfl)).trans (by rfl),
    (c6_description_normalization.2.1
      { description := some "<p>Hello&nbsp;<b>World</b></p>" } (by decide)).trans (by rfl)⟩

lemma concatPages_succ (src : Url → Page) (u : Url) (pag : Bool) (k : Nat) :
    concatPages src u pag (k + 1) =
      concatPages src u pag k ++ (src (pageUrl pag (k + 1) u)).entries := by
  simp [concatPages, List.range_succ]

lemma fetchGo_prefix_dedup (src : Url → Page) (u : Url) (pag : Bool) (mi : Option Int) :
    ∀ (fuel page : Nat) (seen : List String) (acc : List Entry) (l : List Entry),
      1 ≤ page →
      seen = seenAfter [] (concatPages src u pag (page - 1)) →
      acc = dedupGo [] (concatPages src u pag (page - 1)) →
      fetchGo src u pag mi fuel page seen acc = some (.ok l) →
      ∃ k, l <+: dedupGo [] (concatPages src u pag k) := by
  intro fuel
  induction fuel with
  | zero =>
    intro page seen acc l _ _ _ h
    exact absurd h (by simp [fetchGo])
  | succ n ih =>
    intro page seen acc l hpage hseen hacc h
    rw [fetchGo] at h
    by_cases hb : (src (pageUrl pag page u)).bozo = true ∧ (src (pageUrl pag page u)).entries = []
    · rw [if_pos hb] at h
      by_cases hp1 : page = 1
      · rw [if_pos hp1] at h
        exact absurd h (by simp)
      · rw [if_neg hp1] at h
        injection h with h2
        injection h2 with h3
        exact ⟨page - 1, by rw [← h3, hacc]⟩
    · rw [if_neg hb] at h
      by_cases he : (src (pageUrl pag page u)).entries = []
      · rw [if_pos he] at h
        injection h with h2
        injection h2 with h3
        exact ⟨page - 1, by rw [← h3, hacc]⟩
      · rw [if_neg he] at h
        by_cases hs : (src (pageUrl pag page u)).status = some 404
        · rw [if_pos hs] at h
          injection h with h2
          injection h2 with h3
          exact ⟨page - 1, by rw [← h3, hacc]⟩
        · rw [if_neg hs] at h
          have hstep : page - 1 + 1 = page := by omega
          have hconc : concatPages src u pag page =
              concatPages src u pag (page - 1) ++ (src (pageUrl pag page u)).entries := by
            conv_lhs => rw [← hstep]
            rw [concatPages_succ, hstep]
          have haccE : (addNew (src (pageUrl pag page u)).entries seen acc 0).2.1 =
              dedupGo [] (concatPages src u pag page) := by
            rw [addNew_acc, hacc, hseen, ← dedupGo_append, ← hconc]
          have hseenE : (addNew (src (pageUrl pag page u)).entries seen acc 0).1 =
              seenAfter [] (concatPages src u pag page) := by
            rw [addNew_seen, hseen, ← seenAfter_append, ← hconc]
          by_cases hc : (addNew (src (pageUrl pag page u)).entries seen acc 0).2.2 = 0
          · rw [if_pos hc] at h
            injection h with h2
            injection h2 with h3
            exact ⟨page, by rw [← h3, haccE]⟩
          · rw [if_neg hc] at h
            by_cases hmx : maxReached mi
                (addNew (src (pageUrl pag page u)).entries seen acc 0).2.1.length = true
            · rw [if_pos hmx] at h
              injection h with h2
              injection h2 with h3
              refine ⟨page, ?_⟩
              rw [← h3, ← haccE]
              exact pySliceTo_isPrefix _ _
            · rw [if_neg hmx] at h
              by_cases hpg : pag = false
              · rw [if_pos hpg] at h
                injection h with h2
                injection h2 with h3
                exact ⟨page, by rw [← h3, haccE]⟩
              · rw [if_neg hpg] at h
                refine ih (page + 1) _ _ l (by omega) ?_ ?_ h
                · rw [Nat.add_sub_cancel]
                  exact hseenE
                · rw [Nat.add_sub_cancel]
                  exact haccE

/-- C3: every successful run of the fetch loop — with or without
pagination — returns a sequence whose links are pairwise distinct, and
which is an initial segment of the first-occurrence de-duplication of
the concatenated requested pages, so entries appear in first-seen
order. -/
theorem c3_dedup_invariant (src : Url → Page) (u : Url) (paginate : Bool)
    (maxItems : Option Int) (fuel : Nat) (l : List Entry)
    (h : fetch_all_entries src u paginate maxItems fuel = some (.ok l)) :
    (l.map linkOf).Nodup ∧
      ∃ k, l <+: dedupGo [] (concatPages src u paginate k) := by
  have hpre := fetchGo_prefix_dedup src u paginate maxItems fuel 1 [] [] l
    (le_refl 1) (by simp [concatPages, seenAfter]) (by simp [concatPages, dedupGo]) h
  refine ⟨?_, hpre⟩
  obtain ⟨k, t, ht⟩ := hpre
  have hmapeq : l.map linkOf ++ t.map linkOf =
      (dedupGo [] (concatPages src u paginate k)).map linkOf := by
    rw [← List.map_append, ht]
  have hsub : List.Sublist (l.map linkOf)
      ((dedupGo [] (concatPages src u paginate k)).map linkOf) :=
    hmapeq ▸ List.sublist_append_left (l.map linkOf) (t.map linkOf)
  exact List.Nodup.sublist hsub (dedupGo_nodup _ _).1

/-- Witness for C3 at a concrete paginated run over `feed20`. -/
theorem c3_dedup_invariant_witness :
    (entries20.map linkOf).Nodup ∧
      ∃ k, entries20 <+: dedupGo [] (concatPages feed20 u0 true k) :=
  c3_dedup_invariant feed20 u0 true none 9 entries20 (by rfl)

/-- A value `v` is among the values recorded for key `k` in the ordered
parameter dictionary. -/
def memParam (d : List (String × List String)) (k v : String) : Prop :=
  ∃ vs, (k, vs) ∈ d ∧ v ∈ vs

lemma addParam_mem_preserve (k v : String) :
    ∀ (d : List (String × List String)) (k0 v0 : String),
      memParam d k0 v0 → memParam (addParam k v d) k0 v0 := by
  intro d
  induction d with
  | nil =>
    intro k0 v0 h
    rcases h with ⟨vs, hmem, _⟩
    simp at hmem
  | cons p rest ih =>
    obtain ⟨k1, vs1⟩ := p
    intro k0 v0 h
    rcases h with ⟨vs, hmem, hv⟩
    by_cases hk : k1 = k
    · have hstep : addParam k v ((k1, vs1) :: rest) = (k1, vs1 ++ [v]) :: rest := by
        simp [addParam, hk]
      rw [hstep]
      rcases List.mem_cons.mp hmem with hmem1 | hmem1
      · have hk0 : k0 = k1 := congrArg Prod.fst hmem1
        have hvs : vs = vs1 := congrArg Prod.snd hmem1
        exact ⟨vs1 ++ [v], by rw [hk0]; exact List.mem_cons_self _ _,
          List.mem_append_left _ (hvs ▸ hv)⟩
      · exact ⟨vs, List.mem_cons_of_mem _ hmem1, hv⟩
    · have hstep : addParam k v ((k1, vs1) :: rest) = (k1, vs1) :: addParam k v rest := by
        simp [addParam, hk]
      rw [hstep]
      rcases List.mem_cons.mp hmem with hmem1 | hmem1
      · have hk0 : k0 = k1 := congrArg Prod.fst hmem1
        have hvs : vs = vs1 := congrArg Prod.snd hmem1
        exact ⟨vs1, by rw [hk0]; exact List.mem_cons_self _ _, hvs ▸ hv⟩
      · rcases ih k0 v0 ⟨vs, hmem1, hv⟩ with ⟨vs2, hmem2, hv2⟩
        exact ⟨vs2, List.mem_cons_of_mem _ hmem2, hv2⟩

lemma addParam_mem_self (k v : String) :
    ∀ d : List (String × List String), memParam (addParam k v d) k v := by
  intro d
  induction d with
  | nil => exact ⟨[v], by simp [addParam], by simp⟩
  | cons p rest ih =>
    obtain ⟨k1, vs1⟩ := p
    by_cases hk : k1 = k
    · refine ⟨vs1 ++ [v], ?_, List.mem_append_right _ (by simp)⟩
      subst hk
      simp [addParam]
    · have hstep : addParam k v ((k1, vs1) :: rest) = (k1, vs1) :: addParam k v rest := by
        simp [addParam, hk]
      rw [hstep]
      rcases ih with ⟨vs2, h2, hv2⟩
      exact ⟨vs2, List.mem_cons_of_mem _ h2, hv2⟩

lemma parseQsGo_mem_preserve :
    ∀ (q : List (String × String)) (acc : List (String × List String)) (k v : String),
      memParam acc k v → memParam (parseQsGo acc q) k v := by
  intro q
  induction q with
  | nil => intro acc k v h; exact h
  | cons p rest ih =>
    obtain ⟨k1, v1⟩ := p
    intro acc k v h
    by_cases h1 : v1 = ""
    · have hstep : parseQsGo acc ((k1, v1) :: rest) = parseQsGo acc rest := by
        simp [parseQsGo, h1]
      rw [hstep]
      exact ih acc k v h
    · have hstep : parseQsGo acc ((k1, v1) :: rest) = parseQsGo (addParam k1 v1 acc) rest := by
        simp [parseQsGo, h1]
      rw [hstep]
      exact ih _ k v (addParam_mem_preserve k1 v1 acc k v h)

lemma parseQsGo_mem :
    ∀ (q : List (String × String)) (acc : List (String × List String)) (k v : String),
      v ≠ "" → (k, v) ∈ q → memParam (parseQsGo acc q) k v := by
  intro q
  induction q with
  | nil => intro acc k v _ hmem; simp at hmem
  | cons p rest ih =>
    obtain ⟨k1, v1⟩ := p
    intro acc k v hv hmem
    rcases List.mem_cons.mp hmem with hmem1 | hmem1
    · have hk0 : k = k1 := congrArg Prod.fst hmem1
      have hv0 : v = v1 := congrArg Prod.snd hmem1
      have hv1 : v1 ≠ "" := hv0 ▸ hv
      have hstep : parseQsGo acc ((k1, v1) :: rest) = parseQsGo (addParam k1 v1 acc) rest := by
        simp [parseQsGo, hv1]
      rw [hstep, hk0, hv0]
      exact parseQsGo_mem_preserve rest _ k1 v1 (addParam_mem_self k1 v1 acc)
    · by_cases h1 : v1 = ""
      · have hstep : parseQsGo acc ((k1, v1) :: rest) = parseQsGo acc rest := by
          simp [parseQsGo, h1]
        rw [hstep]
        exact ih acc k v hv hmem1
      · have hstep : parseQsGo acc ((k1, v1) :: rest) = parseQsGo (addParam k1 v1 acc) rest := by
          simp [parseQsGo, h1]
        rw [hstep]
        exact ih _ k v hv hmem1

lemma setKey_mem_preserve (key : String) (vs : List String) :
    ∀ (d : List (String × List String)) (k v : String),
      k ≠ key → memParam d k v → memParam (setKey key vs d) k v := by
  intro d
  induction d with
  | nil =>
    intro k v _ h
    rcases h with ⟨vs0, hmem, _⟩
    simp at hmem
  | cons p rest ih =>
    obtain ⟨k1, vs1⟩ := p
    intro k v hk h
    rcases h with ⟨vs0, hmem, hv⟩
    by_cases h1 : k1 = key
    · have hstep : setKey key vs ((k1, vs1) :: rest) = (k1, vs) :: rest := by
        simp [setKey, h1]
      rw [hstep]
      rcases List.mem_cons.mp hmem with hmem1 | hmem1
      · have hk0 : k = k1 := congrArg Prod.fst hmem1
        exact absurd (hk0.trans h1) hk
      · exact ⟨vs0, List.mem_cons_of_mem _ hmem1, hv⟩
    · have hstep : setKey key vs ((k1, vs1) :: rest) = (k1, vs1) :: setKey key vs rest := by
        simp [setKey, h1]
      rw [hstep]
      rcases List.mem_cons.mp hmem with hmem1 | hmem1
      · have hk0 : k = k1 := congrArg Prod.fst hmem1
        have hvs : vs0 = vs1 := congrArg Prod.snd hmem1
        exact ⟨vs1, by rw [hk0]; exact List.mem_cons_self _ _, hvs ▸ hv⟩
      · rcases ih k v hk ⟨vs0, hmem1, hv⟩ with ⟨vs2, hmem2, hv2⟩
        exact ⟨vs2, List.mem_cons_of_mem _ hmem2, hv2⟩

lemma setKey_mem_self (key : String) (vs : List String) :
    ∀ d : List (String × List String), (key, vs) ∈ setKey key vs d := by
  intro d
  induction d with
  | nil => simp [setKey]
  | cons p rest ih =>
    obtain ⟨k1, vs1⟩ := p
    by_cases h1 : k1 = key
    · subst h1
      simp [setKey]
    · have hstep : setKey key vs ((k1, vs1) :: rest) = (k1, vs1) :: setKey key vs rest := by
        simp [setKey, h1]
      rw [hstep]
      exact List.mem_cons_of_mem _ ih

lemma urlencodeDoseq_mem (d : List (String × List String)) (k v : String) :
    memParam d k v → (k, v) ∈ urlencodeDoseq d := by
  intro h
  rcases h with ⟨vs, hmem, hv⟩
  unfold urlencodeDoseq
  rw [List.mem_flatMap]
  refine ⟨(k, vs), hmem, ?_⟩
  rw [List.mem_map]
  exact ⟨v, hv, rfl⟩

lemma mem_keys_addParam (k v : String) :
    ∀ (d : List (String × List String)) (x : String),
      x ∈ (addParam k v d).map Prod.fst ↔ x ∈ d.map Prod.fst ∨ x = k := by
  intro d
  induction d with
  | nil => intro x; simp [addParam]
  | cons p rest ih =>
    obtain ⟨k1, vs1⟩ := p
    intro x
    by_cases h1 : k1 = k
    · subst h1
      have hstep : addParam k1 v ((k1, vs1) :: rest) = (k1, vs1 ++ [v]) :: rest := by
        simp [addParam]
      rw [hstep]
      simp only [List.map_cons, List.mem_cons]
      constructor
      · intro hx
        exact Or.inl hx
      · rintro (hx | hx)
        · exact hx
        · exact Or.inl hx
    · have hstep : addParam k v ((k1, vs1) :: rest) = (k1, vs1) :: addParam k v rest := by
        simp [addParam, h1]
      rw [hstep]
      simp only [List.map_cons, List.mem_cons, ih]
      tauto

lemma addParam_keys_nodup (k v : String) :
    ∀ d : List (String × List String),
      (d.map Prod.fst).Nodup → ((addParam k v d).map Prod.fst).Nodup := by
  intro d
  induction d with
  | nil => intro _; simp [addParam]
  | cons p rest ih =>
    obtain ⟨k1, vs1⟩ := p
    intro hnd
    rw [List.map_cons, List.nodup_cons] at hnd
    by_cases h1 : k1 = k
    · have hstep : addParam k v ((k1, vs1) :: rest) = (k1, vs1 ++ [v]) :: rest := by
        simp [addParam, h1]
      rw [hstep, List.map_cons, List.nodup_cons]
      exact hnd
    · have hstep : addParam k v ((k1, vs1) :: rest) = (k1, vs1) :: addParam k v rest := by
        simp [addParam, h1]
      rw [hstep, List.map_cons, List.nodup_cons]
      constructor
      · intro hx
        rcases (mem_keys_addParam k v rest k1).mp hx with hx1 | hx1
        · exact hnd.1 hx1
        · exact h1 hx1
      · exact ih hnd.2

lemma parseQsGo_keys_nodup :
    ∀ (q : List (String × String)) (acc : List (String × List String)),
      (acc.map Prod.fst).Nodup → ((parseQsGo acc q).map Prod.fst).Nodup := by
  intro q
  induction q with
  | nil => intro acc h; exact h
  | cons p rest ih =>
    obtain ⟨k1, v1⟩ := p
    intro acc h
    by_cases h1 : v1 = ""
    · have hstep : parseQsGo acc ((k1, v1) :: rest) = parseQsGo acc rest := by
        simp [parseQsGo, h1]
      rw [hstep]
      exact ih acc h
    · have hstep : parseQsGo acc ((k1, v1) :: rest) = parseQsGo (addParam k1 v1 acc) rest := by
        simp [parseQsGo, h1]
      rw [hstep]
      exact ih _ (addParam_keys_nodup k1 v1 acc h)

lemma setKey_lookup_unique (key : String) (vs : List String) :
    ∀ (d : List (String × List String)) (vs0 : List String),
      (d.map Prod.fst).Nodup → (key, vs0) ∈ setKey key vs d → vs0 = vs := by
  intro d
  induction d with
  | nil =>
    intro vs0 _ hmem
    simp [setKey] at hmem
    exact hmem
  | cons p rest ih =>
    obtain ⟨k1, vs1⟩ := p
    intro vs0 hnd hmem
    rw [List.map_cons, List.nodup_cons] at hnd
    by_cases h1 : k1 = key
    · subst h1
      have hstep : setKey k1 vs ((k1, vs1) :: rest) = (k1, vs) :: rest := by
        simp [setKey]
      rw [hstep] at hmem
      rcases List.mem_cons.mp hmem with hmem1 | hmem1
      · exact congrArg Prod.snd hmem1
      · exact absurd (List.mem_map.mpr ⟨(k1, vs0), hmem1, rfl⟩) hnd.1
    · have hstep : setKey key vs ((k1, vs1) :: rest) = (k1, vs1) :: setKey key vs rest := by
        simp [setKey, h1]
      rw [hstep] at hmem
      rcases List.mem_cons.mp hmem with hmem1 | hmem1
      · exact absurd (congrArg Prod.fst hmem1).symm h1
      · exact ih vs0 hnd.2 hmem1

lemma paged_value_unique (d : List (String × List String)) (s : String)
    (hnd : (d.map Prod.fst).Nodup) :
    ∀ v, ("paged", v) ∈ urlencodeDoseq (setKey "paged" [s] d) → v = s := by
  intro v hv
  unfold urlencodeDoseq at hv
  rw [List.mem_flatMap] at hv
  obtain ⟨⟨k1, vs1⟩, hmem, hv2⟩ := hv
  rw [List.mem_map] at hv2
  obtain ⟨v2, hv2m, heq⟩ := hv2
  injection heq with hk hv3
  subst hk
  subst hv3
  have hvs : vs1 = [s] := setKey_lookup_unique "paged" [s] d vs1 hnd hmem
  rw [hvs] at hv2m
  simpa using hv2m

/-- A base URL carrying a blank-valued query parameter. -/
def uBlank : Url :=
  { base := "https://www.uneiaparjour.fr/feed/", query := [("a", "")] }

/-- A base URL with a non-blank parameter, a pre-existing `paged`
parameter and a blank parameter. -/
def uQ : Url :=
  { base := "https://www.uneiaparjour.fr/feed/"
  , query := [("a", "1"), ("paged", "9"), ("b", "")] }

/-- Counterexample to C8 as stated: with a blank-valued query parameter
`a` in the base URL, the page-2 URL does not preserve it — `parse_qs`
with its default `keep_blank_values=False` drops it, so the rebuilt
query holds only `paged=2`. -/
theorem c8_paged_url_cex :
    uBlank.query = [("a", "")] ∧
      (build_paged_url uBlank 2).query = [("paged", "2")] ∧
      ∀ v, ("a", v) ∉ (build_paged_url uBlank 2).query := by
  refine ⟨rfl, by rfl, ?_⟩
  intro v hv
  rw [show (build_paged_url uBlank 2).query = [("paged", "2")] from by rfl] at hv
  have h2 := List.mem_singleton.mp hv
  have h3 : "a" = "paged" := congrArg Prod.fst h2
  exact absurd h3 (by decide)

/-- C8, amended: page 1 is always requested with the base URL unmodified
and page N>1 with `build_paged_url`, which sets `paged` to N (overwriting
any pre-existing `paged` value) and preserves every query parameter with
a non-blank value and another key; parameters with blank values are
dropped by the query re-encoding. -/
theorem c8_paged_url_amended :
    (∀ (pag : Bool) (u : Url), pageUrl pag 1 u = u) ∧
      (∀ (u : Url) (p : Nat), 1 < p → pageUrl true p u = build_paged_url u p) ∧
      (∀ (u : Url) (n : Nat) (k v : String),
        (k, v) ∈ u.query → v ≠ "" → k ≠ "paged" →
        (k, v) ∈ (build_paged_url u n).query) ∧
      (∀ (u : Url) (n : Nat), ("paged", toString n) ∈ (build_paged_url u n).query) ∧
      (∀ (u : Url) (n : Nat) (v : String),
        ("paged", v) ∈ (build_paged_url u n).query → v = toString n) := by
  refine ⟨?_, ?_, ?_, ?_, ?_⟩
  · intro pag u
    simp [pageUrl]
  · intro u p hp
    simp [pageUrl, hp]
  · intro u n k v hmem hv hk
    unfold build_paged_url
    apply urlencodeDoseq_mem
    exact setKey_mem_preserve "paged" [toString n] _ k v hk
      (parseQsGo_mem u.query [] k v hv hmem)
  · intro u n
    unfold build_paged_url
    apply urlencodeDoseq_mem
    exact ⟨[toString n], setKey_mem_self "paged" [toString n] _, by simp⟩
  · intro u n v hv
    exact paged_value_unique (pyParseQs u.query) (toString n)
      (parseQsGo_keys_nodup u.query [] (by simp)) v hv

/-- Witness for the amended C8 at a concrete URL: the non-blank parameter
survives, `paged` appears with the page number, and page 1 keeps the URL
unchanged. -/
theorem c8_paged_url_amended_witness :
    pageUrl true 1 uQ = uQ ∧
      pageUrl true 2 uQ = build_paged_url uQ 2 ∧
      ("a", "1") ∈ (build_paged_url uQ 2).query ∧
      ("paged", toString 2) ∈ (build_paged_url uQ 2).query :=
  ⟨c8_paged_url_amended.1 true uQ,
    c8_paged_url_amended.2.1 uQ 2 (by decide),
    c8_paged_url_amended.2.2.1 uQ 2 "a" "1" (by decide) (by decide) (by decide),
    c8_paged_url_amended.2.2.2.1 uQ 2⟩
